import Mathlib

/-!
Verification of the discovery / pipeline / checkpoint engine of the two
news scrapers (`lorient_scraper.py`, `the961_scraper.py`, `main.py`).

The embedding is shallow: HTTP probes are oracle parameters, Python
`while` loops become fuel-indexed recursions that return `none` when the
fuel runs out (every theorem supplies provably sufficient fuel, so the
`none` branch is never the subject of a claim), raised exceptions become
`Except.error` or `Option.none` exactly where the source catches or
propagates them, and Python `set`s become `Finset`s.
-/

namespace Lorient

/-- Outcome of one `test_id` probe (`lorient_scraper.py` lines 145-155):
`some c` is the returned status code (404 / 200 / 301), `none` models a
raised exception (connection error or unexpected status). -/
abbrev Tester := Nat → Option Nat

/-- The look-forward-10 loop inside `find_latest` (lines 179-183): after a
404 at `pos`, probe `pos+1 .. pos+10` and stop at the first non-404 code;
if all ten are 404 the original 404 stands.  These probes are not inside
the surrounding `try`, so a raised probe (`none`) propagates as an
exception (`.error`) out of `find_latest`. -/
def look_ahead (test : Tester) (pos : Nat) : List Nat → Except Unit Nat
  | [] => .ok 404
  | i :: rest =>
    match test (pos + i) with
    | none => .error ()
    | some c => if c ≠ 404 then .ok c else look_ahead test pos rest

/-- Result of the doubling phase of `find_latest` (lines 170-194):
either the function returns (`ret none` = Python `return None` after a
caught probe exception, `ret (some _)` = the `2^21` cap fallback), or an
exception escapes a look-ahead probe (`exn`), or the loop exits with the
bracket `[bottom, top]` for the binary phase. -/
inductive DblOut where
  | ret (r : Option Nat)
  | exn
  | bracket (bottom top : Nat)
deriving DecidableEq

/-- The `while under` doubling loop of `find_latest` (lines 170-194),
fuel-indexed.  One iteration: probe `start_id + searcher` (a caught
exception returns `None`); on a 404 run the look-ahead; if the code is
still 404 set `bottom = searcher/2 + start_id`, `top = searcher +
start_id` and fall through (the `searcher == 2^21` check still runs);
otherwise double `searcher`, and if it reached `2^21` return the fallback
`start_id + 2^20`. -/
def find_latest_doubling (test : Tester) (start_id : Nat) : Nat → Nat → Option DblOut
  | 0, _ => none
  | fuel+1, searcher =>
    match test (start_id + searcher) with
    | none => some (.ret none)
    | some c0 =>
      match (if c0 = 404 then look_ahead test (start_id + searcher) [1,2,3,4,5,6,7,8,9,10]
             else .ok c0) with
      | .error _ => some .exn
      | .ok code =>
        if code = 404 then
          if searcher = 2 ^ 21 then some (.ret (some (start_id + 2 ^ 20)))
          else some (.bracket (searcher / 2 + start_id) (searcher + start_id))
        else
          if searcher * 2 = 2 ^ 21 then some (.ret (some (start_id + 2 ^ 20)))
          else find_latest_doubling test start_id fuel (searcher * 2)

/-- The binary-refinement loop of `find_latest` (lines 196-208),
fuel-indexed: while `top - 1 != bottom`, probe the midpoint
`bottom + (top - bottom) / 2` directly with `test_id` (note: no
look-ahead here); 404 moves `top` down, anything else moves `bottom` up;
a caught probe exception returns `None` (`some none`). -/
def find_latest_binary (test : Tester) : Nat → Nat → Nat → Option (Option Nat)
  | 0, _, _ => none
  | fuel+1, bottom, top =>
    if top = bottom + 1 then some (some bottom)
    else
      match test (bottom + (top - bottom) / 2) with
      | none => some none
      | some code =>
        if code = 404 then find_latest_binary test fuel bottom (bottom + (top - bottom) / 2)
        else find_latest_binary test fuel (bottom + (top - bottom) / 2) top

/-- Glue between the two phases of `find_latest`: an early return or
exception of the doubling phase passes through, a bracket enters the
binary phase. -/
def find_latest_from (test : Tester) (fuel2 : Nat) (d : Option DblOut) :
    Option (Except Unit (Option Nat)) :=
  match d with
  | none => none
  | some .exn => some (.error ())
  | some (.ret r) => some (.ok r)
  | some (.bracket bottom top) =>
    match find_latest_binary test fuel2 bottom top with
    | none => none
    | some r => some (.ok r)

/-- `find_latest` (lines 164-208).  Layers of the result: outer `none` =
fuel exhausted (the Python loop had not yet terminated); `.error ()` = an
exception escaped a look-ahead probe; `.ok none` = the function returned
`None` after a caught probe exception; `.ok (some b)` = returned id `b`. -/
def find_latest (fuel1 fuel2 : Nat) (test : Tester) (start_id : Nat) :
    Option (Except Unit (Option Nat)) :=
  find_latest_from test fuel2 (find_latest_doubling test start_id fuel1 1)

/-- Probe oracle with a single Gone-run starting at offset `k` from
`start_id`: ids at offsets below `k` exist (status 200), ids at offset
`≥ k` are Gone (404).  No probe raises. -/
def oneRunTest (start_id k : Nat) : Tester :=
  fun id => some (if start_id + k ≤ id then 404 else 200)

/-- Probe oracle with one isolated Gone at offset `j` and the true
Gone-run starting at offset `k`. -/
def gapRunTest (start_id j k : Nat) : Tester :=
  fun id => some (if id = start_id + j ∨ start_id + k ≤ id then 404 else 200)

/-- Outcome of fetching one article page inside `test_date`
(lines 214-222): `raise` = the request raised (network error after
retries) or the published-time meta is missing/unparseable (`strptime`
raises — uncaught, so it propagates); `gone` = status 404; `page d` = the
page exists and its published date parses to the instant `d` (dates are
abstracted to their parsed instants, `Int`). -/
inductive DateProbeOut where
  | raise
  | gone
  | page (d : Int)
deriving DecidableEq

/-- `test_date` (lines 214-222): probe `article_id`; on a 404 the source
calls `test_date(article_id + 1)` — a recursive retry, embedded here with
fuel (outer `none` = the recursion had not yet reached an existing id);
`.error` = an exception propagated. -/
def test_date (probe : Int → DateProbeOut) : Nat → Int → Option (Except Unit Int)
  | 0, _ => none
  | fuel+1, article_id =>
    match probe article_id with
    | .raise => some (.error ())
    | .gone => test_date probe fuel (article_id + 1)
    | .page d => some (.ok d)

/-- Result of the backward doubling loop of `find_backwards`
(lines 229-235): an exception is logged and re-raised (`exn`), or the
loop exits with the width whose probe date was `≤ target_date`. -/
inductive FbOut where
  | exn
  | width (w : Int)
deriving DecidableEq

/-- The `while test_date(top - width) > target_date: width *= 2` loop of
`find_backwards` (lines 229-235), fuel-indexed, starting width 16. -/
def find_backwards_doubling (tdFuel : Nat) (probe : Int → DateProbeOut)
    (top target_date : Int) : Nat → Int → Option FbOut
  | 0, _ => none
  | fuel+1, width =>
    match test_date probe tdFuel (top - width) with
    | none => none
    | some (.error _) => some .exn
    | some (.ok d) =>
      if d > target_date then find_backwards_doubling tdFuel probe top target_date fuel (width * 2)
      else some (.width width)

/-- The binary narrowing loop of `find_backwards` (lines 239-249),
fuel-indexed: while `top - bottom > 1`, probe the date of the midpoint;
a date above target moves `top` down, otherwise `bottom` up; exceptions
are logged and re-raised. -/
def find_backwards_binary (tdFuel : Nat) (probe : Int → DateProbeOut)
    (target_date : Int) : Nat → Int → Int → Option (Except Unit Int)
  | 0, _, _ => none
  | fuel+1, bottom, top =>
    if top - bottom > 1 then
      match test_date probe tdFuel (bottom + (top - bottom) / 2) with
      | none => none
      | some (.error _) => some (.error ())
      | some (.ok d) =>
        if d > target_date then
          find_backwards_binary tdFuel probe target_date fuel bottom (bottom + (top - bottom) / 2)
        else
          find_backwards_binary tdFuel probe target_date fuel (bottom + (top - bottom) / 2) top
    else some (.ok bottom)

/-- `find_backwards` (lines 228-249).  After the doubling loop exits with
`width`, the source sets `bottom = top - width` and
`top = bottom + int(width / 2)` — note the new `top` was only probed by
an earlier iteration when the loop ran at least twice.  The `top_date`
parameter is unused, exactly as in the source. -/
def find_backwards (tdFuel fuel1 fuel2 : Nat) (probe : Int → DateProbeOut)
    (top top_date target_date : Int) : Option (Except Unit Int) :=
  match find_backwards_doubling tdFuel probe top target_date fuel1 16 with
  | none => none
  | some .exn => some (.error ())
  | some (.width w) =>
    find_backwards_binary tdFuel probe target_date fuel2 (top - w) (top - w + w / 2)

/-- Concrete probe for the C8 counterexample: ids 5 and 6 are Gone, id 7
exists with date 42. -/
def twoGoneProbe : Int → DateProbeOut :=
  fun id => if id = 5 ∨ id = 6 then .gone else if id = 7 then .page 42 else .raise

/-- Synthetic date probe for C3: every id exists and its published date
is the id itself (strictly increasing with id). -/
def idDateProbe : Int → DateProbeOut := fun id => .page id

/-- A record as stored in a lorient batch file, restricted to the fields
`combine_lorient_json` reads: `title` (the dedup key, `None` when the
og:title meta was absent), `datetime` (abstracted to the instant the
stored string parses to — `sorted`'s `strptime` key), and the body
text. -/
structure ArticleJ where
  title : Option String
  datetime : Int
  text : String
deriving DecidableEq

/-- One iteration of the per-file loop of `combine_lorient_json`
(lines 410-418): `titleset` is the file's title set minus the titles
already seen; every record of the file whose title is in `titleset` is
appended (note: all such records, not just the first); the seen set is
extended by `titleset`. -/
def combine_step (acc : Finset (Option String) × List ArticleJ) (l_arts : List ArticleJ) :
    Finset (Option String) × List ArticleJ :=
  let titleset := (l_arts.map (fun a => a.title)).toFinset \ acc.1
  (acc.1 ∪ titleset, acc.2 ++ l_arts.filter (fun a => a.title ∈ titleset))

/-- `combine_lorient_json` (lines 403-428) as a function of the directory
listing: the batch files' parsed contents, in the order `os.listdir`
returned them (the source applies no sort to that order).  Survivors are
sorted by parsed published timestamp ascending (Python `sorted` is
stable, as is `mergeSort`). -/
def combine_lorient_json (files : List (List ArticleJ)) : List ArticleJ :=
  ((files.foldl combine_step (∅, [])).2).mergeSort (fun a b => a.datetime ≤ b.datetime)

/-- The records carrying title `t` in the first listed file containing
`t` (empty when no file does). -/
def firstWith (t : Option String) : List (List ArticleJ) → List ArticleJ
  | [] => []
  | f :: fs =>
    if t ∈ f.map (fun a => a.title) then f.filter (fun a => a.title = t)
    else firstWith t fs

/-- First record of the duplicate-title pair used in the C6/C10 concrete
instances. -/
def dupA : ArticleJ := ⟨some "a", 0, "x"⟩

/-- Second record of the duplicate-title pair: same title, later
timestamp, different text. -/
def dupB : ArticleJ := ⟨some "a", 1, "y"⟩

/-- A record with a different title, used as an earlier batch. -/
def recB : ArticleJ := ⟨some "b", 5, "z"⟩

end Lorient

/-- A Python timezone-aware datetime restricted to the fields the
scrapers' strptime/strftime format codes address: calendar fields to
second precision plus the fixed UTC offset in minutes (`%z`).  Both
parse formats used by the scrapers leave microseconds at zero, so they
are omitted. -/
structure DT where
  year : Nat
  month : Nat
  day : Nat
  hour : Nat
  minute : Nat
  second : Nat
  utcoffset : Int
deriving DecidableEq

/-- The information content of a string in the batch-file timestamp
format `%Y-%m-%dT%H:%M%z`: calendar fields to minute precision plus the
UTC offset.  The format has no `%S` directive. -/
structure SerHM where
  year : Nat
  month : Nat
  day : Nat
  hour : Nat
  minute : Nat
  utcoffset : Int
deriving DecidableEq

/-- `datetime.strftime(d, '%Y-%m-%dT%H:%M%z')` — the serialization used
by both scrapers' `articles_to_json`: keeps year through minute and the
offset, drops seconds. -/
def strftime_HM (d : DT) : SerHM :=
  ⟨d.year, d.month, d.day, d.hour, d.minute, d.utcoffset⟩

/-- `datetime.strptime(s, '%Y-%m-%dT%H:%M%z')` — parsing the batch-file
format: fields absent from the format (seconds) come out zero; the
offset is kept verbatim, not normalized to UTC. -/
def strptime_HM (s : SerHM) : DT :=
  ⟨s.year, s.month, s.day, s.hour, s.minute, 0, s.utcoffset⟩

/-- Truncate a datetime to the precision the batch-file format can
carry. -/
def zeroSec (d : DT) : DT :=
  ⟨d.year, d.month, d.day, d.hour, d.minute, 0, d.utcoffset⟩

namespace Lorient

/-- The canonical-link tag of a lorient page as `article_langauge`
(lines 115-125) examines it: `fr`/`en` when `str(info)` matches
`www.`/`today.lorientlejour.com`; `other hasHref` for any other tag —
the code then reads `info['href']` for its warning, raising `KeyError`
when the tag has no href.  A missing tag (`soup.find` returned `None`)
makes that subscript raise `TypeError`. -/
inductive CanonTag where
  | fr
  | en
  | other (hasHref : Bool)
deriving DecidableEq

/-- `article_langauge` (lines 115-125): note the uncaught exceptions in
the fallback branch. -/
def article_langauge : Option CanonTag → Except Unit (Option String)
  | some .fr => .ok (some "fr")
  | some .en => .ok (some "en")
  | some (.other true) => .ok none
  | some (.other false) => .error ()
  | none => .error ()

/-- Parse-relevant content of a lorient article page: the canonical link
tag, the og:title meta (`none` when absent — `parse_meta` swallows the
lookup error), the article:published_time meta (`some s` when present
and `'%Y-%m-%dT%H:%M%z'`-parseable, carrying the minute-precision value;
`none` when absent or unparseable — the `strptime` failure is caught at
lines 84-88 and the datetime key stays unset), and the joined text of
the `article_full_text` paragraphs (the div/paragraph join of lines
89-93 abstracted to its resulting string). -/
structure Soup where
  canonical : Option CanonTag
  title : Option String
  published : Option SerHM
  text : String
deriving DecidableEq

/-- The article dict built by `parse_article` (lines 79-94): `datetime`
is `none` when the published-time string failed to parse (the key is
then missing from the dict). -/
structure Article where
  language : Option String
  title : Option String
  datetime : Option DT
  text : String
deriving DecidableEq

/-- `parse_article` (lorient, lines 79-94).  The language lookup runs
first and its exceptions (missing canonical tag, missing href) are
uncaught; the datetime parse failure is caught. -/
def parse_article (soup : Soup) : Except Unit Article :=
  match article_langauge soup.canonical with
  | .error e => .error e
  | .ok lang => .ok ⟨lang, soup.title, soup.published.map strptime_HM, soup.text⟩

/-- Transport outcome for one lorient URL as `get_html` (lines 57-72)
distinguishes them: an exception during the request (transient failure
after retries), a 404, a redirect landing off `lorientlejour.com/article`,
or a fetched page with content `soup`. -/
inductive Fetch where
  | transient
  | notFound
  | offDomain
  | ok (soup : Soup)
deriving DecidableEq

/-- `get_html` (lines 57-72): every failure mode is logged and returns
`None`; only an on-domain non-404 page is returned. -/
def get_html : Fetch → Option Soup
  | .ok soup => some soup
  | _ => none

/-- Per-item worker result: `invalid` = the `{'valid': False}` dict
(fetch failed); `timedOnly` = timing keys but no `article` key (empty
extracted text, logged); `withArticle` = timings plus the article.
Timing values are omitted (wall-clock floats, irrelevant to the
claims). -/
inductive Worker where
  | invalid
  | timedOnly
  | withArticle (a : Article)
deriving DecidableEq

/-- `thread_worker` (lorient, lines 257-283): `parse_article` is NOT
wrapped in try/except here, so an exception it raises propagates out of
the worker (`.error`). -/
def thread_worker (item : Fetch) : Except Unit Worker :=
  match get_html item with
  | none => .ok .invalid
  | some soup =>
    match parse_article soup with
    | .error e => .error e
    | .ok article =>
      if article.text = "" then .ok .timedOnly else .ok (.withArticle article)

/-- `parse_many` (lorient, lines 289-313): collects the `article` values
of the workers' results; a worker that raised re-raises at its
`future.result()` call, aborting `parse_many` with no records returned.
Completion order is scheduler-dependent; the embedding uses submission
order, which fixes the same multiset of outcomes. -/
def parse_many : List Fetch → Except Unit (List Article)
  | [] => .ok []
  | item :: rest =>
    match thread_worker item with
    | .error e => .error e
    | .ok w =>
      match parse_many rest with
      | .error e => .error e
      | .ok l =>
        match w with
        | .withArticle a => .ok (a :: l)
        | _ => .ok l

/-- A serialized lorient batch record as written by `articles_to_json`
(lines 131-139): the datetime field holds the `%Y-%m-%dT%H:%M%z` string,
every other field is dumped to JSON unchanged. -/
structure ArticleSer where
  language : Option String
  title : Option String
  datetime : SerHM
  text : String
deriving DecidableEq

/-- Per-record effect of `articles_to_json` (lines 131-139) with
`convert_datetimes=True`: `article['datetime']` is read — raising
`KeyError` (`none`) when the datetime key is missing — and replaced by
its `%Y-%m-%dT%H:%M%z` rendering. -/
def articles_to_json_record : Article → Option ArticleSer
  | ⟨lang, title, some d, text⟩ => some ⟨lang, title, strftime_HM d, text⟩
  | ⟨_, _, none, _⟩ => none

/-- Re-reading a batch record: JSON fields unchanged, the datetime
string re-parsed with the batch format (as `combine_lorient_json` and
the toc readers do). -/
def read_batch_record (s : ArticleSer) : Article :=
  ⟨s.language, s.title, some (strptime_HM s.datetime), s.text⟩

/-- A well-formed lorient page used in concrete instances. -/
def goodSoup : Soup :=
  ⟨some .fr, some "t", some ⟨2021, 5, 10, 12, 30, 120⟩, "body text"⟩

/-- A malformed lorient page: the canonical link tag is missing, so
`article_langauge` raises. -/
def badSoup : Soup :=
  ⟨none, some "u", some ⟨2021, 5, 10, 12, 31, 120⟩, "more text"⟩

/-- The article `parse_article` extracts from `goodSoup`. -/
def goodArticle : Article :=
  ⟨some "fr", some "t", some ⟨2021, 5, 10, 12, 30, 0, 120⟩, "body text"⟩

/-- The lorient checkpoint `toc.json`, with ids as numbers (the source
stores them as strings and converts with `int`/`str`) and datetimes
abstracted to instants. -/
structure Toc where
  max_id : Nat
  max_datetime : Int
  min_id : Int
  min_datetime : Int
deriving DecidableEq

/-- `scrape_latest` (lines 319-350) reduced to its checkpoint effect:
`.error ()` = any exception before the final toc write — `find_latest`
returning `None` makes `latest_id + 1` raise `TypeError`, a crashed
`parse_many` worker or a failed batch-file write likewise aborts — and
the toc file is then left untouched; `.ok toc2` = the checkpoint
rewritten at the end of the run.  The parse/write stage is abstracted to
the flag `pipeline_ok`, since only its success matters to the
checkpoint. -/
def scrape_latest (fuel1 fuel2 : Nat) (test : Tester) (now : Int)
    (pipeline_ok : Bool) (toc : Toc) : Except Unit Toc :=
  match find_latest fuel1 fuel2 test toc.max_id with
  | none => .error ()
  | some (.error _) => .error ()
  | some (.ok none) => .error ()
  | some (.ok (some latest_id)) =>
    if pipeline_ok then
      .ok { toc with max_id := latest_id, max_datetime := now }
    else .error ()

/-- `scrape_backwards` (lines 353-387) reduced to its checkpoint effect,
analogously to `scrape_latest`. -/
def scrape_backwards (tdFuel fuel1 fuel2 : Nat) (probe : Int → DateProbeOut)
    (cutoff : Int) (pipeline_ok : Bool) (toc : Toc) : Except Unit Toc :=
  match find_backwards tdFuel fuel1 fuel2 probe toc.min_id toc.min_datetime cutoff with
  | none => .error ()
  | some (.error _) => .error ()
  | some (.ok first_id) =>
    if pipeline_ok then
      .ok { toc with min_id := first_id, min_datetime := cutoff }
    else .error ()

/-- The checkpoint file content after a run: unchanged when the run
failed before the final write (the file is only opened for writing at
the last step), the new toc on success. -/
def toc_after (result : Except Unit Toc) (toc : Toc) : Toc :=
  match result with
  | .error _ => toc
  | .ok toc2 => toc2

end Lorient

namespace The961

/-- The Article node of the yoast schema graph, restricted to the fields
`parse_article` (lines 104-162) reads.  A date field is `some d` when
the offset-munged string parses with `'%Y-%m-%dT%H:%M:%S%z'` (second
precision kept), `none` when that fails; `headline` is the unescaped
title (`html.unescape` abstracted into the stored value). -/
structure Schema where
  inLanguage : String
  dateModified : Option DT
  datePublished : Option DT
  headline : Option String
deriving DecidableEq

/-- Parse-relevant content of a the961 page: the schema node (`none`
when the yoast script is missing, its JSON fails to load, or no graph
node has an Article type) and the joined `body-color` paragraph text
(`none` when the div is missing, making `findChildren` raise). -/
structure Soup where
  schema : Option Schema
  body : Option String
deriving DecidableEq

/-- A parsed the961 article (lines 104-162). -/
structure Article where
  language : String
  mod_date : DT
  pub_date : DT
  title : String
  text : String
deriving DecidableEq

/-- `parse_article` (the961, lines 104-162): every failure raises
`ValidationError` — each step's try/except re-raises as
`ValidationError`, including the explicit non-`en-US` raise inside the
language try-block, which its own handler catches and re-raises. -/
def parse_article (soup : Soup) : Except Unit Article := do
  let schema ← match soup.schema with
    | none => Except.error ()
    | some s => Except.ok s
  let language ← if schema.inLanguage = "en-US" then Except.ok "en"
    else Except.error ()
  let mod_date ← match schema.dateModified with
    | none => Except.error ()
    | some d => Except.ok d
  let pub_date ← match schema.datePublished with
    | none => Except.error ()
    | some d => Except.ok d
  let title ← match schema.headline with
    | none => Except.error ()
    | some t => Except.ok t
  let text ← match soup.body with
    | none => Except.error ()
    | some t => Except.ok t
  Except.ok ⟨language, mod_date, pub_date, title, text⟩

/-- Transport outcome for one the961 URL, as `get_html` (lines 68-83)
distinguishes them. -/
inductive Fetch where
  | transient
  | notFound
  | offDomain
  | ok (soup : Soup)
deriving DecidableEq

/-- `get_html` (the961, lines 68-83): every failure mode is logged and
returns `None`. -/
def get_html : Fetch → Option Soup
  | .ok soup => some soup
  | _ => none

/-- Per-item worker result, as for the lorient pipeline. -/
inductive Worker where
  | invalid
  | timedOnly
  | withArticle (a : Article)
deriving DecidableEq

/-- `thread_worker` (the961, lines 168-199): here `parse_article` IS
wrapped in `try/except ValidationError` — a failed parse degrades to the
`{'text': ''}` dict, which the empty-text check below then excludes from
the results (logged as a warning), so the worker never raises. -/
def thread_worker (item : Fetch) : Worker :=
  match get_html item with
  | none => .invalid
  | some soup =>
    match parse_article soup with
    | .error _ => .timedOnly
    | .ok article =>
      if article.text = "" then .timedOnly else .withArticle article

/-- `parse_many` (the961, lines 260-283): collects the `article` values
of the completed workers; no worker raises, so the batch always
completes. -/
def parse_many (urls : List Fetch) : List Article :=
  urls.filterMap (fun item =>
    match thread_worker item with
    | .withArticle a => some a
    | _ => none)

/-- A serialized the961 batch record as written by `articles_to_json`
(lines 89-98): both timestamps rendered with `'%Y-%m-%dT%H:%M%z'` — the
format has no `%S`, so seconds are dropped. -/
structure ArticleSer where
  language : String
  mod_date : SerHM
  pub_date : SerHM
  title : String
  text : String
deriving DecidableEq

/-- Per-record effect of `articles_to_json` (the961, lines 89-98). -/
def articles_to_json_record (a : Article) : ArticleSer :=
  ⟨a.language, strftime_HM a.mod_date, strftime_HM a.pub_date, a.title, a.text⟩

/-- Re-reading a batch record: JSON fields unchanged, the timestamp
strings re-interpreted under the batch format. -/
def read_batch_record (s : ArticleSer) : Article :=
  ⟨s.language, strptime_HM s.mod_date, strptime_HM s.pub_date, s.title, s.text⟩

/-- A well-formed the961 page used in concrete instances; the schema
dates carry zero seconds. -/
def goodSoup : Soup :=
  ⟨some ⟨"en-US", some ⟨2021, 5, 10, 11, 0, 0, 180⟩,
    some ⟨2021, 5, 10, 12, 0, 0, 180⟩, some "hl"⟩, some "words"⟩

/-- The article `parse_article` extracts from `goodSoup`. -/
def goodArticle : Article :=
  ⟨"en", ⟨2021, 5, 10, 11, 0, 0, 180⟩, ⟨2021, 5, 10, 12, 0, 0, 180⟩, "hl", "words"⟩

/-- A the961 article whose published timestamp carries 45 seconds, as
the `%H:%M:%S` schema parse produces on real pages. -/
def secArticle : Article :=
  ⟨"en", ⟨2021, 5, 10, 11, 0, 0, 120⟩, ⟨2021, 5, 10, 12, 30, 45, 120⟩, "t", "x"⟩

/-- The the961 checkpoint `the961_toc.json`: the active sitemap cursor,
the completed sitemap set and the active sitemap's seen-URL set (the
JSON lists modeled as the sets the source immediately builds from
them).  Sitemap names and article URLs are abstracted to atoms. -/
structure Toc where
  current_sitemap : Nat
  completed_sitemaps : Finset Nat
  parsed_articles : Finset Nat
deriving DecidableEq

/-- Loop state of `crawl_all_the961` (lines 218-254): the candidate
articles found so far, the growing completed set, the running maximal
sitemap index with its map, and `new_parsed`.  In the source
`new_parsed` starts as an alias of `parsed_articles`; since
`parsed_articles` is only ever read before the aliased update in the
same branch, separating the two is observationally faithful. -/
structure CrawlSt where
  articles : Finset Nat
  completed : Finset Nat
  hi_index : Nat
  hi_map : Nat
  new_parsed : Finset Nat
deriving DecidableEq

/-- One iteration of the sitemap loop (lines 233-248), with the index
extraction `(\d)\.xml` abstracted as `idxOf` and each sitemap's URL set
as `urlsOf`: the entry equal to the cursor is diffed against the
persisted seen set and extends `new_parsed`; a non-completed entry
contributes all its URLs, and when its index exceeds the running maximum
the previous cursor is folded into the completed set and `new_parsed` is
rebound to this entry's URLs, otherwise the entry itself is marked
completed; completed entries are skipped. -/
def crawl_step (idxOf : Nat → Nat) (urlsOf : Nat → Finset Nat)
    (current_map : Nat) (parsed0 : Finset Nat) (st : CrawlSt) (s : Nat) : CrawlSt :=
  if s = current_map then
    { st with articles := st.articles ∪ (urlsOf s \ parsed0),
              new_parsed := st.new_parsed ∪ urlsOf s }
  else if s ∉ st.completed then
    if idxOf s > st.hi_index then
      { st with articles := st.articles ∪ urlsOf s,
                completed := insert st.hi_map st.completed,
                hi_index := idxOf s, hi_map := s,
                new_parsed := urlsOf s }
    else
      { st with articles := st.articles ∪ urlsOf s,
                completed := insert s st.completed }
  else st

/-- `crawl_all_the961` (lines 218-254) as a function of the sitemap
index (`maps`, in document order) and the per-sitemap URL sets: returns
the candidate article set together with the updated toc (new cursor =
the running maximal map, completed set, `new_parsed` as the new seen
set). -/
def crawl_all_the961 (idxOf : Nat → Nat) (urlsOf : Nat → Finset Nat)
    (maps : List Nat) (toc : Toc) : Finset Nat × Toc :=
  let st0 : CrawlSt := ⟨∅, toc.completed_sitemaps, idxOf toc.current_sitemap,
    toc.current_sitemap, toc.parsed_articles⟩
  let st := maps.foldl (crawl_step idxOf urlsOf toc.current_sitemap toc.parsed_articles) st0
  (st.articles, ⟨st.hi_map, st.completed, st.new_parsed⟩)

end The961

namespace Lorient

theorem look_ahead_all_gone (test : Tester) (pos : Nat) (l : List Nat)
    (h : ∀ i ∈ l, test (pos + i) = some 404) : look_ahead test pos l = .ok 404 := by
  induction l with
  | nil => rfl
  | cons i rest ih =>
    rw [look_ahead, h i (by simp)]
    simp only [ne_eq, not_true_eq_false, reduceIte]
    exact ih (fun i hi => h i (by simp [hi]))

theorem look_ahead_first_found (test : Tester) (pos i : Nat) (l : List Nat) (c : Nat)
    (hc : test (pos + i) = some c) (hne : c ≠ 404) :
    look_ahead test pos (i :: l) = .ok c := by
  rw [look_ahead, hc]
  simp [hne]

/-- Correctness of the binary-refinement loop: if the probed codes on the
open interval `(bottom, top)` are 404 exactly at and above a threshold
`K`, and `bottom < K ≤ top`, the loop converges to `K - 1` within
`top - bottom` iterations. -/
theorem find_latest_binary_correct (test : Tester) (K : Nat) :
    ∀ (fuel bottom top : Nat), bottom < K → K ≤ top → top - bottom ≤ fuel →
    (∀ x, bottom < x → x < top → ∃ c, test x = some c ∧ (c = 404 ↔ K ≤ x)) →
    find_latest_binary test fuel bottom top = some (some (K - 1)) := by
  intro fuel
  induction fuel with
  | zero => intro bottom top h1 h2 h3 _; omega
  | succ f ih =>
    intro bottom top h1 h2 h3 ho
    by_cases htb : top = bottom + 1
    · have hK : K = bottom + 1 := by omega
      rw [find_latest_binary, if_pos htb, hK]
      norm_num
    · have hwide : bottom + 2 ≤ top := by omega
      set mid := bottom + (top - bottom) / 2 with hmid
      have hlo : bottom < mid := by omega
      have hhi : mid < top := by omega
      obtain ⟨c, hc, hiff⟩ := ho mid hlo hhi
      rw [find_latest_binary, if_neg htb, ← hmid, hc]
      dsimp only
      by_cases hKm : K ≤ mid
      · rw [if_pos (hiff.mpr hKm)]
        exact ih bottom mid h1 hKm (by omega)
          (fun x hx1 hx2 => ho x hx1 (by omega))
      · have hc404 : c ≠ 404 := fun h => hKm (hiff.mp h)
        rw [if_neg hc404]
        exact ih mid top (by omega) h2 (by omega)
          (fun x hx1 hx2 => ho x (by omega) hx2)

/-- Main run lemma for `find_latest`: with a single Gone-run at offset `k`
(`k ≤ 2^20 + 1`) and at most one isolated gap at offset `j` that is
covered by the look-ahead (`j + 10 < k`) and lies at or below the final
bracket bottom (`j ≤ k / 2`), the composite search returns
`start_id + k - 1` from any doubling state `searcher = 2^e` reachable
with the given fuel.  `j = 0` encodes the gapless case. -/
theorem find_latest_run (test : Tester) (start_id k j : Nat)
    (hk1 : 1 ≤ k) (hk2 : k ≤ 2 ^ 20 + 1)
    (hj : j = 0 ∨ (1 ≤ j ∧ j + 10 < k ∧ j ≤ k / 2))
    (ho : ∀ id, start_id < id →
        test id = some (if start_id + k ≤ id ∨ (j ≠ 0 ∧ id = start_id + j) then 404 else 200))
    (fuel2 : Nat) (hf2 : k ≤ fuel2) :
    ∀ (fuel1 e : Nat), e ≤ 20 → (e = 0 ∨ 2 ^ (e - 1) < k) → 21 - e ≤ fuel1 →
    find_latest_from test fuel2 (find_latest_doubling test start_id fuel1 (2 ^ e)) =
      some (.ok (some (start_id + k - 1))) := by
  intro fuel1
  induction fuel1 with
  | zero => intro e he _ hfe; omega
  | succ f ih =>
    intro e he hinv hfe
    have hpose : (0:Nat) < 2 ^ e := Nat.pos_pow_of_pos e (by norm_num)
    have hid : start_id < start_id + 2 ^ e := by omega
    by_cases hke : k ≤ 2 ^ e
    -- Case A: the probe at offset 2^e hits the Gone run; the look-ahead
    -- confirms and the loop exits with bracket [2^e/2, 2^e].
    · have hcond : start_id + k ≤ start_id + 2 ^ e ∨ (j ≠ 0 ∧ start_id + 2 ^ e = start_id + j) := by
        left; omega
      have hprobe : test (start_id + 2 ^ e) = some 404 := by
        rw [ho _ hid, if_pos hcond]
      have hgap_low : j ≤ 2 ^ e / 2 := by
        rcases hj with h0 | ⟨_, _, hj2⟩
        · omega
        · exact le_trans hj2 (Nat.div_le_div_right hke)
      have hla : look_ahead test (start_id + 2 ^ e) [1,2,3,4,5,6,7,8,9,10] = .ok 404 := by
        apply look_ahead_all_gone
        intro i hi
        have hgt : start_id < start_id + 2 ^ e + i := by omega
        rw [ho _ hgt, if_pos (by left; omega)]
      have hne21 : ¬ (2 ^ e = 2 ^ 21) := by
        intro h
        have := Nat.pow_right_injective (by norm_num) h
        omega
      rw [find_latest_doubling, hprobe]
      simp only [reduceIte, hla]
      rw [if_neg hne21]
      -- binary phase on the bracket
      have hbot : 2 ^ e / 2 + start_id < start_id + k := by
        rcases Nat.eq_zero_or_pos e with he0 | hep
        · subst he0; simp; omega
        · have h2 : 2 ^ e = 2 ^ (e - 1) * 2 := by
            rw [← pow_succ]; congr 1; omega
          have hlt : 2 ^ (e - 1) < k := by
            rcases hinv with h0 | hlt
            · omega
            · exact hlt
          omega
      have hbody := find_latest_binary_correct test (start_id + k) fuel2
        (2 ^ e / 2 + start_id) (2 ^ e + start_id) hbot (by omega)
        (by
          have hhalf : 2 ^ e - 2 ^ e / 2 ≤ k := by omega
          omega)
        (by
          intro x hx1 hx2
          have hxj : ¬ (j ≠ 0 ∧ x = start_id + j) := by
            rintro ⟨hj0, rfl⟩
            omega
          refine ⟨if start_id + k ≤ x then 404 else 200, ?_, ?_⟩
          · rw [ho x (by omega)]
            by_cases hx : start_id + k ≤ x
            · rw [if_pos (Or.inl hx), if_pos hx]
            · rw [if_neg, if_neg hx]
              rintro (h | h)
              · exact hx h
              · exact hxj h
          · by_cases hx : start_id + k ≤ x
            · simp [hx]
            · simp [hx])
      simp only [find_latest_from, hbody]
    -- Case B: the probe at offset 2^e is below the run; possibly the
    -- isolated gap, which the look-ahead recovers; the loop doubles.
    · push_neg at hke
      have hcode : (match test (start_id + 2 ^ e) with
          | none => some (DblOut.ret none)
          | some c0 =>
            match (if c0 = 404 then look_ahead test (start_id + 2 ^ e) [1,2,3,4,5,6,7,8,9,10]
                   else .ok c0) with
            | .error _ => some DblOut.exn
            | .ok code =>
              if code = 404 then
                if 2 ^ e = 2 ^ 21 then some (DblOut.ret (some (start_id + 2 ^ 20)))
                else some (DblOut.bracket (2 ^ e / 2 + start_id) (2 ^ e + start_id))
              else
                if 2 ^ e * 2 = 2 ^ 21 then some (DblOut.ret (some (start_id + 2 ^ 20)))
                else find_latest_doubling test start_id f (2 ^ e * 2)) =
          (if 2 ^ e * 2 = 2 ^ 21 then some (DblOut.ret (some (start_id + 2 ^ 20)))
           else find_latest_doubling test start_id f (2 ^ e * 2)) := by
        by_cases hgap : j ≠ 0 ∧ start_id + 2 ^ e = start_id + j
        · -- probing exactly the isolated gap: 404, but look-ahead finds j+1
          have hprobe : test (start_id + 2 ^ e) = some 404 := by
            rw [ho _ hid, if_pos (Or.inr hgap)]
          rcases hj with h0 | ⟨hj1, hjk, hj2⟩
          · exact absurd h0 hgap.1
          · have hj_eq : 2 ^ e = j := by omega
            have hnext : test (start_id + 2 ^ e + 1) = some 200 := by
              have hgt : start_id < start_id + 2 ^ e + 1 := by omega
              rw [ho _ hgt, if_neg]
              rintro (h | ⟨_, h⟩) <;> omega
            have hla := look_ahead_first_found test (start_id + 2 ^ e) 1
              [2,3,4,5,6,7,8,9,10] 200 hnext (by norm_num)
            rw [hprobe]
            simp [hla]
        · -- an ordinary existing id: 200, no look-ahead
          have hprobe : test (start_id + 2 ^ e) = some 200 := by
            rw [ho _ hid, if_neg]
            rintro (h | h)
            · omega
            · exact hgap h
          rw [hprobe]
          simp
      rw [find_latest_doubling]
      rw [hcode]
      by_cases he20 : e = 20
      · -- the cap: searcher reaches 2^21 and the fallback start_id + 2^20
        -- is returned; here k = 2^20 + 1, so the fallback is start_id + k - 1.
        subst he20
        have hkeq : k = 2 ^ 20 + 1 := by
          have : (2:Nat) ^ 20 < k := hke
          omega
        rw [if_pos (by norm_num)]
        simp only [find_latest_from]
        congr 3
        omega
      · have hne : ¬ (2 ^ e * 2 = 2 ^ 21) := by
          intro h
          rw [← pow_succ] at h
          have := Nat.pow_right_injective (by norm_num) h
          omega
        rw [if_neg hne]
        have hrec := ih (e + 1) (by omega) (by right; simpa using hke) (by omega)
        rw [pow_succ] at hrec
        exact hrec

/-- Packaged form of `find_latest_run` starting from the initial state
`searcher = 1`. -/
theorem find_latest_boundary (fuel1 fuel2 : Nat) (test : Tester) (start_id k j : Nat)
    (hk1 : 1 ≤ k) (hk2 : k ≤ 2 ^ 20 + 1)
    (hj : j = 0 ∨ (1 ≤ j ∧ j + 10 < k ∧ j ≤ k / 2))
    (ho : ∀ id, start_id < id →
        test id = some (if start_id + k ≤ id ∨ (j ≠ 0 ∧ id = start_id + j) then 404 else 200))
    (hf1 : 21 ≤ fuel1) (hf2 : k ≤ fuel2) :
    find_latest fuel1 fuel2 test start_id = some (.ok (some (start_id + k - 1))) := by
  have h := find_latest_run test start_id k j hk1 hk2 hj ho fuel2 hf2 fuel1 0
    (by omega) (Or.inl rfl) (by omega)
  simpa [find_latest] using h

/-- C1 (amended): for every start id and every probe-outcome sequence with
a single Gone-run starting at offset `k` (`1 ≤ k`) — ids at offsets below
`k` exist, ids at offsets `≥ k` are Gone, no probe raises — `find_latest`
terminates and returns `start_id + k - 1`, provided `k ≤ 2^20 + 1` (for
`k = 2^20 + 1` the `2^21` doubling cap makes the fallback coincide with
the true boundary; for larger `k` below `2^21` the cap fallback
`start_id + 2^20` is returned instead, see the counterexample). -/
theorem C1_forward_boundary (fuel1 fuel2 start_id k : Nat) (test : Tester)
    (hk1 : 1 ≤ k) (hk2 : k ≤ 2 ^ 20 + 1)
    (ho : ∀ id, start_id < id →
        test id = some (if start_id + k ≤ id then 404 else 200))
    (hf1 : 21 ≤ fuel1) (hf2 : k ≤ fuel2) :
    find_latest fuel1 fuel2 test start_id = some (.ok (some (start_id + k - 1))) := by
  apply find_latest_boundary fuel1 fuel2 test start_id k 0 hk1 hk2 (Or.inl rfl) _ hf1 hf2
  intro id hid
  rw [ho id hid]
  congr 1
  simp

/-- C1 witness: the amended theorem applied to the concrete oracle with
`start_id = 10`, `k = 3`. -/
theorem C1_forward_boundary_witness :
    find_latest 21 3 (oneRunTest 10 3) 10 = some (.ok (some (10 + 3 - 1))) :=
  C1_forward_boundary 21 3 10 3 (oneRunTest 10 3) (by norm_num) (by norm_num)
    (fun id _ => rfl) (by norm_num) (by norm_num)

/-- C1 counterexample: with the Gone-run at offset `k = 2^20 + 2`, which
is below the `2^21` doubling cap, `find_latest` returns the fallback
`start_id + 2^20`, not `start_id + k - 1 = start_id + 2^20 + 1` as the
claim states. -/
theorem C1_counterexample :
    find_latest 22 1 (oneRunTest 0 (2 ^ 20 + 2)) 0 = some (.ok (some (2 ^ 20))) ∧
      (2 ^ 20 : Nat) ≠ 0 + (2 ^ 20 + 2) - 1 := by
  constructor
  · rfl
  · decide

/-- C2 (amended): a single isolated Gone at offset `j` followed by Found
at offsets `j+1 .. j+10`, with the true Gone-run at offset `k > j + 10`,
does not terminate the doubling search (the look-ahead recovers), and
`find_latest` still returns the last existing id `start_id + k - 1`,
provided the gap lies at or below the final bracket bottom
(`j ≤ k / 2`), so that the binary-refinement phase — which probes without
any look-ahead — never lands on the gap.  When the gap falls strictly
inside the refinement bracket the search can return an id below the true
boundary (see the counterexample). -/
theorem C2_gap_tolerance (fuel1 fuel2 start_id j k : Nat) (test : Tester)
    (hj1 : 1 ≤ j) (hjk : j + 10 < k) (hj2 : j ≤ k / 2) (hk2 : k ≤ 2 ^ 20 + 1)
    (ho : ∀ id, start_id < id →
        test id = some (if id = start_id + j ∨ start_id + k ≤ id then 404 else 200))
    (hf1 : 21 ≤ fuel1) (hf2 : k ≤ fuel2) :
    find_latest fuel1 fuel2 test start_id = some (.ok (some (start_id + k - 1))) := by
  apply find_latest_boundary fuel1 fuel2 test start_id k j (by omega) hk2
    (Or.inr ⟨hj1, hjk, hj2⟩) _ hf1 hf2
  intro id hid
  rw [ho id hid]
  have hiff : (id = start_id + j ∨ start_id + k ≤ id) ↔
      (start_id + k ≤ id ∨ (j ≠ 0 ∧ id = start_id + j)) := by
    constructor
    · rintro (h | h)
      · exact Or.inr ⟨by omega, h⟩
      · exact Or.inl h
    · rintro (h | ⟨_, h⟩)
      · exact Or.inr h
      · exact Or.inl h
  rw [if_congr hiff rfl rfl]

/-- C2 witness: the amended theorem applied to the concrete oracle with
`start_id = 0`, gap at offset `j = 1`, Gone-run at `k = 12`. -/
theorem C2_gap_tolerance_witness :
    find_latest 21 12 (gapRunTest 0 1 12) 0 = some (.ok (some (0 + 12 - 1))) :=
  C2_gap_tolerance 21 12 0 1 12 (gapRunTest 0 1 12) (by norm_num) (by norm_num)
    (by norm_num) (by norm_num) (fun id _ => rfl) (by norm_num) (by norm_num)

/-- C2 counterexample: gap at offset `j = 48`, Found at offsets 49..58,
true Gone-run at `k = 60 > j + 10`.  The doubling phase brackets
`[32, 64]`; the binary refinement probes the midpoint 48 — the isolated
gap — with no look-ahead, treats it as the boundary, and returns 47
instead of the true last existing id 59. -/
theorem C2_counterexample :
    find_latest 22 64 (gapRunTest 0 48 60) 0 = some (.ok (some 47)) ∧
      (47 : Nat) ≠ 0 + 60 - 1 := by
  constructor
  · rfl
  · decide

theorem test_date_page (probe : Int → DateProbeOut) (fuel : Nat) (id : Int) (d : Int)
    (h : probe id = .page d) : test_date probe (fuel + 1) id = some (.ok d) := by
  rw [test_date, h]

/-- C8 (amended): the Gone recovery of `test_date` is recursive, not
single-step — on a Gone id it advances one id at a time until the first
existing id, whose date it returns, skipping past a run of consecutive
missing ids of any length `m` (given fuel for `m` steps). -/
theorem C8_test_date_recovery (probe : Int → DateProbeOut) (id d : Int) (m : Nat)
    (hgone : ∀ i : Nat, i < m → probe (id + i) = .gone)
    (hpage : probe (id + m) = .page d) :
    ∀ fuel, m < fuel → test_date probe fuel id = some (.ok d) := by
  induction m generalizing id with
  | zero =>
    intro fuel hf
    obtain ⟨f, rfl⟩ : ∃ f, fuel = f + 1 := ⟨fuel - 1, by omega⟩
    rw [test_date]
    simp only [Int.natCast_zero, add_zero] at hpage
    rw [hpage]
  | succ n ih =>
    intro fuel hf
    obtain ⟨f, rfl⟩ : ∃ f, fuel = f + 1 := ⟨fuel - 1, by omega⟩
    rw [test_date]
    have h0 : probe id = .gone := by
      have := hgone 0 (by omega)
      simpa using this
    rw [h0]
    apply ih (id + 1)
    · intro i hi
      have := hgone (i + 1) (by omega)
      rw [show id + 1 + (i : Int) = id + ((i : Nat) + 1 : Nat) by push_cast; ring]
      exact this
    · rw [show id + 1 + (n : Int) = id + ((n : Nat) + 1 : Nat) by push_cast; ring]
      exact hpage
    · omega

/-- C8 witness: the amended theorem applied to the concrete probe with a
run of two consecutive Gone ids (5 and 6) before the existing id 7. -/
theorem C8_test_date_recovery_witness :
    test_date twoGoneProbe 3 5 = some (.ok 42) :=
  C8_test_date_recovery twoGoneProbe 5 42 2
    (by intro i hi; interval_cases i <;> rfl) (by rfl) 3 (by norm_num)

/-- C8 counterexample: with ids 5 and 6 both Gone and id 7 existing,
`test_date 5` returns the date of id 7 — it skipped past two consecutive
missing ids, contradicting the claim that the recovery probes exactly
`id + 1` and never skips past more than one consecutive missing id. -/
theorem C8_counterexample :
    test_date twoGoneProbe 3 5 = some (.ok 42) ∧
      twoGoneProbe 5 = .gone ∧ twoGoneProbe 6 = .gone ∧ twoGoneProbe 7 = .page 42 := by
  refine ⟨rfl, rfl, rfl, rfl⟩

/-- For a date assignment monotone in id with boundary `b`
(`date b ≤ target < date (b+1)`), a probed date is `≤ target` exactly
when the probed id is `≤ b`. -/
theorem date_threshold (date : Int → Int)
    (hmono : ∀ i j : Int, i ≤ j → date i ≤ date j) (target_date b : Int)
    (hb1 : date b ≤ target_date) (hb2 : target_date < date (b + 1)) :
    ∀ g : Int, date g ≤ target_date ↔ g ≤ b := by
  intro g
  constructor
  · intro h
    by_contra hg
    push_neg at hg
    have hge : b + 1 ≤ g := by omega
    have := hmono _ _ hge
    omega
  · intro h
    exact le_trans (hmono _ _ h) hb1

/-- The backward doubling loop exits with a width `W` that brackets the
boundary: `top - W ≤ b`, and either `W` is still the initial width or the
previously probed `top - W/2` is strictly above the boundary. -/
theorem find_backwards_doubling_exit (probe : Int → DateProbeOut) (date : Int → Int)
    (hprobe : ∀ i, probe i = .page (date i))
    (hmono : ∀ i j : Int, i ≤ j → date i ≤ date j)
    (top target_date b : Int)
    (hb1 : date b ≤ target_date) (hb2 : target_date < date (b + 1)) (tdFuel : Nat) :
    ∀ (f : Nat) (w : Int), 0 < w → 2 ∣ w → top - b ≤ w * 2 ^ f →
    ∃ W : Int,
      find_backwards_doubling (tdFuel + 1) probe top target_date (f + 1) w = some (.width W) ∧
      0 < W ∧ 2 ∣ W ∧ w ≤ W ∧ W ≤ w * 2 ^ f ∧ top - W ≤ b ∧ (W = w ∨ b < top - W / 2) := by
  have hth := date_threshold date hmono target_date b hb1 hb2
  intro f
  induction f with
  | zero =>
    intro w hw0 hw2 hwb
    have hle : top - w ≤ b := by
      have : w * 2 ^ 0 = w := by ring
      omega
    have hdate : ¬ (date (top - w) > target_date) := by
      simp only [gt_iff_lt, not_lt]
      exact (hth (top - w)).mpr hle
    refine ⟨w, ?_, hw0, hw2, le_refl w, by
      have : w * 2 ^ 0 = w := by ring
      omega, hle, Or.inl rfl⟩
    rw [find_backwards_doubling, test_date_page probe tdFuel _ _ (hprobe (top - w))]
    simp only [hdate, reduceIte]
  | succ n ih =>
    intro w hw0 hw2 hwb
    by_cases hle : top - w ≤ b
    · have hdate : ¬ (date (top - w) > target_date) := by
        simp only [gt_iff_lt, not_lt]
        exact (hth (top - w)).mpr hle
      have hWle : w ≤ w * 2 ^ (n + 1) := by
        have h1 : (1:Int) ≤ 2 ^ (n + 1) := one_le_pow₀ (by norm_num)
        exact le_mul_of_one_le_right hw0.le h1
      refine ⟨w, ?_, hw0, hw2, le_refl w, hWle, hle, Or.inl rfl⟩
      rw [find_backwards_doubling, test_date_page probe tdFuel _ _ (hprobe (top - w))]
      simp only [hdate, reduceIte]
    · push_neg at hle
      have hdate : date (top - w) > target_date := by
        by_contra h
        push_neg at h
        have := (hth (top - w)).mp h
        omega
      have hrec := ih (w * 2) (by omega) ⟨w, by ring⟩ (by
        have : w * 2 * 2 ^ n = w * 2 ^ (n + 1) := by ring
        rw [this]
        exact hwb)
      obtain ⟨W, heq, hW0, hW2, hWge, hWle, hWb, hWd⟩ := hrec
      refine ⟨W, ?_, hW0, hW2, by omega, by
        have : w * 2 * 2 ^ n = w * 2 ^ (n + 1) := by ring
        omega, hWb, ?_⟩
      · rw [find_backwards_doubling, test_date_page probe tdFuel _ _ (hprobe (top - w))]
        simp only [hdate, reduceIte]
        exact heq
      · rcases hWd with hWw | hWd
        · right
          have hhalf : W / 2 = w := by
            rw [hWw]
            omega
          rw [hhalf]
          exact hle
        · right; exact hWd

/-- The backward binary narrowing converges to the boundary `b` when the
initial bracket satisfies `bottom ≤ b < top`. -/
theorem find_backwards_binary_correct (probe : Int → DateProbeOut) (date : Int → Int)
    (hprobe : ∀ i, probe i = .page (date i))
    (hmono : ∀ i j : Int, i ≤ j → date i ≤ date j)
    (target_date b : Int)
    (hb1 : date b ≤ target_date) (hb2 : target_date < date (b + 1)) (tdFuel : Nat) :
    ∀ (fuel : Nat) (bottom top : Int), bottom ≤ b → b < top → (top - bottom).toNat ≤ fuel →
    find_backwards_binary (tdFuel + 1) probe target_date fuel bottom top = some (.ok b) := by
  have hth := date_threshold date hmono target_date b hb1 hb2
  intro fuel
  induction fuel with
  | zero => intro bottom top h1 h2 h3; omega
  | succ f ih =>
    intro bottom top h1 h2 h3
    by_cases hgap : top - bottom > 1
    · set g := bottom + (top - bottom) / 2 with hg
      have hlo : bottom < g := by omega
      have hhi : g < top := by omega
      rw [find_backwards_binary, if_pos hgap, test_date_page probe tdFuel _ _ (hprobe g)]
      dsimp only
      by_cases hgb : g ≤ b
      · have hdate : ¬ (date g > target_date) := by
          simp only [gt_iff_lt, not_lt]
          exact (hth g).mpr hgb
        rw [if_neg hdate, ← hg]
        exact ih g top hgb h2 (by omega)
      · have hdate : date g > target_date := by
          by_contra h
          push_neg at h
          exact hgb ((hth g).mp h)
        rw [if_pos hdate, ← hg]
        exact ih bottom g h1 (by omega) (by omega)
    · have hb : b = bottom := by omega
      rw [find_backwards_binary, if_neg hgap, hb]

/-- C3 (amended): given a date assignment monotone in id and a target
date with boundary `b` (`date b ≤ targetDate < date (b+1)`),
`find_backwards(top, top_date, targetDate)` returns `b` provided
`b ≤ top - 9`.  When the boundary lies within `[top - 8, top - 1]` — i.e.
inside the untested upper half of the initial width-16 bracket — the
function returns `top - 9` instead of `b` (see the counterexample): the
doubling loop exits immediately at width 16 and sets the binary bracket
top to `top - 8` without ever probing it. -/
theorem C3_backward_boundary (probe : Int → DateProbeOut) (date : Int → Int)
    (hprobe : ∀ i, probe i = .page (date i))
    (hmono : ∀ i j : Int, i ≤ j → date i ≤ date j)
    (top top_date target_date b : Int)
    (hb1 : date b ≤ target_date) (hb2 : target_date < date (b + 1))
    (hb9 : b ≤ top - 9)
    (fuel1 fuel2 : Nat) (hf1 : top - b ≤ 16 * 2 ^ fuel1) (hf2 : 8 * 2 ^ fuel1 ≤ fuel2) :
    find_backwards 1 (fuel1 + 1) fuel2 probe top top_date target_date = some (.ok b) := by
  obtain ⟨W, heq, hW0, hW2, hWge, hWle, hWb, hWd⟩ :=
    find_backwards_doubling_exit probe date hprobe hmono top target_date b hb1 hb2 0
      fuel1 16 (by norm_num) (by norm_num) hf1
  rw [find_backwards, heq]
  have hWhalf : W / 2 * 2 = W := Int.ediv_mul_cancel hW2
  have htopb : b < top - W + W / 2 := by
    rcases hWd with hWw | hWd
    · subst hWw
      norm_num
      omega
    · omega
  apply find_backwards_binary_correct probe date hprobe hmono target_date b hb1 hb2 0
    fuel2 (top - W) (top - W + W / 2) hWb htopb
  have hcast : ((8 * 2 ^ fuel1 : Nat) : Int) = 8 * 2 ^ fuel1 := by
    push_cast
    ring
  omega

/-- C3 witness: the amended theorem applied to the synthetic probe
`date(id) = id`, `top = 100`, `targetDate = 80`, boundary `b = 80`. -/
theorem C3_backward_boundary_witness :
    find_backwards 1 2 16 idDateProbe 100 100 80 = some (.ok 80) :=
  C3_backward_boundary idDateProbe (fun i => i) (fun _ => rfl) (fun _ _ h => h)
    100 100 80 80 (by norm_num) (by norm_num) (by norm_num) 1 16
    (by norm_num) (by norm_num)

/-- C3 counterexample: with `date(id) = id`, `top = 100` and
`targetDate = 92`, the unique boundary is `b = 92`
(`date 92 ≤ 92 < date 93`), which lies within the initial doubling width
of `top`; yet `find_backwards` returns 91: the doubling loop exits at
width 16 without probing `top - 8 = 92`, so the binary bracket
`[84, 92]` excludes the boundary. -/
theorem C3_counterexample :
    find_backwards 1 2 20 idDateProbe 100 100 92 = some (.ok 91) ∧
      (91 : Int) ≠ 92 ∧ (92 : Int) ≤ 92 ∧ (92 : Int) < 92 + 1 := by
  refine ⟨rfl, by norm_num, le_refl _, by norm_num⟩

theorem filter_title_mem (f : List ArticleJ) (s : Finset (Option String)) (t : Option String) :
    (f.filter (fun a => a.title ∈ s)).filter (fun a => a.title = t) =
      if t ∈ s then f.filter (fun a => a.title = t) else [] := by
  induction f with
  | nil => simp
  | cons a f ih =>
    by_cases hat : a.title = t
    · by_cases hts : t ∈ s
      · simp [List.filter_cons, hat, hts, ih]
      · simp [List.filter_cons, hat, hts, ih]
    · by_cases hms : a.title ∈ s
      · simp [List.filter_cons, hat, hms, ih]
      · simp [List.filter_cons, hat, hms, ih]

/-- The records with title `t` surviving the per-file dedup loop are the
accumulator's plus — when `t` is not yet in the seen set — exactly the
title-`t` records of the first remaining file containing `t`. -/
theorem combine_foldl_filter (t : Option String) :
    ∀ (files : List (List ArticleJ)) (seen : Finset (Option String)) (acc : List ArticleJ),
    ((files.foldl combine_step (seen, acc)).2).filter (fun a => a.title = t) =
      acc.filter (fun a => a.title = t) ++
        (if t ∈ seen then [] else firstWith t files) := by
  intro files
  induction files with
  | nil => intro seen acc; simp [firstWith]
  | cons f fs ih =>
    intro seen acc
    rw [List.foldl_cons]
    show ((fs.foldl combine_step
        (seen ∪ ((f.map (fun a => a.title)).toFinset \ seen),
         acc ++ f.filter (fun a => a.title ∈ (f.map (fun a => a.title)).toFinset \ seen))).2).filter
        (fun a => a.title = t) = _
    rw [ih, List.filter_append, List.append_assoc]
    congr 1
    rw [filter_title_mem]
    by_cases hseen : t ∈ seen
    · have hts : t ∉ (f.map (fun a => a.title)).toFinset \ seen := by
        simp [Finset.mem_sdiff, hseen]
      simp [hseen, hts, firstWith]
    · by_cases hmem : t ∈ f.map (fun a => a.title)
      · have hts : t ∈ (f.map (fun a => a.title)).toFinset \ seen := by
          simp [Finset.mem_sdiff, hseen, hmem]
        simp [hseen, hts, hmem, firstWith]
      · have hts : t ∉ (f.map (fun a => a.title)).toFinset \ seen := by
          simp [Finset.mem_sdiff, hseen, hmem]
        simp [hseen, hts, hmem, firstWith]

/-- All records with title `t` in the final corpus, up to order, are
exactly the title-`t` records of the first listed file containing `t`. -/
theorem combine_filter_perm (files : List (List ArticleJ)) (t : Option String) :
    ((combine_lorient_json files).filter (fun a => a.title = t)).Perm
      (firstWith t files) := by
  have hperm := List.mergeSort_perm ((files.foldl combine_step (∅, [])).2)
    (fun a b => a.datetime ≤ b.datetime)
  have h := hperm.filter (fun a => a.title = t)
  rw [combine_foldl_filter t files ∅ []] at h
  simpa [combine_lorient_json] using h

/-- The merged corpus is sorted by published timestamp ascending. -/
theorem combine_sorted (files : List (List ArticleJ)) :
    (combine_lorient_json files).Pairwise (fun a b => a.datetime ≤ b.datetime) := by
  have h := @List.sorted_mergeSort ArticleJ (fun a b => a.datetime ≤ b.datetime)
    (fun a b c hab hbc => by
      simp only [decide_eq_true_eq] at *
      omega)
    (fun a b => by
      by_cases hab : a.datetime ≤ b.datetime
      · simp [hab]
      · simp [le_of_not_le hab])
    ((files.foldl combine_step (∅, [])).2)
  exact h.imp (fun hab => by simpa using hab)

theorem firstWith_length_one (t : Option String) :
    ∀ files : List (List ArticleJ), (∃ f ∈ files, t ∈ f.map (fun a => a.title)) →
    (∀ f ∈ files, f.countP (fun a => a.title = t) ≤ 1) →
    (firstWith t files).length = 1 := by
  intro files
  induction files with
  | nil =>
    rintro ⟨f, hf, _⟩ _
    simp at hf
  | cons f fs ih =>
    rintro ⟨g, hg, hgt⟩ hcnt
    by_cases hmem : t ∈ f.map (fun a => a.title)
    · rw [firstWith, if_pos hmem]
      obtain ⟨a, ha, hat⟩ := List.mem_map.mp hmem
      have h1 : 0 < (f.filter (fun a => a.title = t)).length :=
        List.length_pos_of_mem (List.mem_filter.mpr ⟨ha, by simp [hat]⟩)
      have h2 := hcnt f (by simp)
      rw [List.countP_eq_length_filter] at h2
      omega
    · rw [firstWith, if_neg hmem]
      apply ih
      · refine ⟨g, ?_, hgt⟩
        rcases List.mem_cons.mp hg with hgf | hgfs
        · exact absurd (hgf ▸ hgt) hmem
        · exact hgfs
      · intro f' hf'
        exact hcnt f' (by simp [hf'])

/-- C6 (amended): `combine_lorient_json` enumerates the batch files in
the order the directory listing provides (the source applies no sort to
`os.listdir`, so the order is the OS's, not necessarily lexicographic);
for a fixed enumeration order, a title seen in an earlier batch
suppresses that title in all later batches while every record carrying a
first-seen title within its first batch is kept (not only the first such
record — see the counterexample and C10); the survivors are sorted by
published timestamp ascending.  Consequently a distinct title appears
exactly once in the merged corpus provided no single batch file carries
it twice. -/
theorem C6_merger (files : List (List ArticleJ)) :
    (combine_lorient_json files).Pairwise (fun a b => a.datetime ≤ b.datetime) ∧
    (∀ t, ((combine_lorient_json files).filter (fun a => a.title = t)).Perm
        (firstWith t files)) ∧
    (∀ t, (∃ f ∈ files, t ∈ f.map (fun a => a.title)) →
      (∀ f ∈ files, f.countP (fun a => a.title = t) ≤ 1) →
      (combine_lorient_json files).countP (fun a => a.title = t) = 1) := by
  refine ⟨combine_sorted files, fun t => combine_filter_perm files t, fun t hex hcnt => ?_⟩
  rw [List.countP_eq_length_filter, (combine_filter_perm files t).length_eq]
  exact firstWith_length_one t files hex hcnt

/-- C6 witness: the amended theorem's exactly-once consequence applied to
two concrete batches with distinct internal titles. -/
theorem C6_merger_witness :
    (combine_lorient_json [[recB], [dupA]]).countP (fun a => a.title = some "a") = 1 :=
  (C6_merger [[recB], [dupA]]).2.2 (some "a") ⟨[dupA], by simp, by decide⟩ (by decide)

/-- C6 counterexample: a single batch file containing two distinct
records with the same title — both survive the merge, so the corpus
carries the title twice, refuting "each distinct title exactly once" and
"keeps only the first-seen record". -/
theorem C6_counterexample :
    combine_lorient_json [[dupA, dupB]] = [dupA, dupB] ∧
      (combine_lorient_json [[dupA, dupB]]).countP (fun a => a.title = some "a") = 2 ∧
      dupA ≠ dupB := by
  have hfold : (([[dupA, dupB]] : List (List ArticleJ)).foldl combine_step (∅, [])).2 =
      [dupA, dupB] := by decide
  have heq : combine_lorient_json [[dupA, dupB]] = [dupA, dupB] := by
    unfold combine_lorient_json
    rw [hfold]
    exact List.mergeSort_of_sorted (by decide)
  refine ⟨heq, ?_, by decide⟩
  rw [heq]
  decide

theorem firstWith_append_not_mem (t : Option String) :
    ∀ (pre rest : List (List ArticleJ)),
    (∀ l ∈ pre, t ∉ l.map (fun a => a.title)) →
    firstWith t (pre ++ rest) = firstWith t rest := by
  intro pre
  induction pre with
  | nil => intro rest _; simp
  | cons l ls ih =>
    intro rest h
    rw [List.cons_append, firstWith, if_neg (h l (by simp))]
    exact ih rest (fun l' hl' => h l' (by simp [hl']))

/-- C10: `combine_lorient_json` deduplicates titles only against earlier
batch files, never within one file: for a title `t` absent from every
earlier file, all of the file's records carrying `t` survive into the
corpus (up to the final sort), so two same-title records inside one
batch file both survive the merge. -/
theorem C10_within_file_duplicates (pre : List (List ArticleJ)) (file : List ArticleJ)
    (post : List (List ArticleJ)) (t : Option String)
    (hpre : ∀ l ∈ pre, t ∉ l.map (fun a => a.title))
    (hfile : t ∈ file.map (fun a => a.title)) :
    ((combine_lorient_json (pre ++ file :: post)).filter (fun a => a.title = t)).Perm
      (file.filter (fun a => a.title = t)) := by
  have h := combine_filter_perm (pre ++ file :: post) t
  rw [firstWith_append_not_mem t pre (file :: post) hpre] at h
  rw [firstWith, if_pos hfile] at h
  exact h

/-- C10 witness: the theorem applied to a batch file holding the two
same-title records `dupA`, `dupB` after an unrelated earlier batch —
both records survive. -/
theorem C10_within_file_duplicates_witness :
    ((combine_lorient_json [[recB], [dupA, dupB]]).filter
        (fun a => a.title = some "a")).Perm
      ([dupA, dupB].filter (fun a => a.title = some "a")) :=
  C10_within_file_duplicates [[recB]] [dupA, dupB] [] (some "a")
    (by decide) (by decide)

end Lorient

/-- C9 (amended): a record written to a batch file and re-read
reproduces every field except timestamp seconds, because the batch
format `%Y-%m-%dT%H:%M%z` stores minute precision.  Lorient records
round-trip exactly — their published timestamps were parsed at minute
precision, so their seconds are already zero — while a the961 record
comes back with both timestamps truncated to whole minutes (its schema
dates parse with `%H:%M:%S`); the UTC offset is preserved verbatim in
both directions (timestamps are not UTC-normalized). -/
theorem C9_record_round_trip :
    (∀ (soup : Lorient.Soup) (a : Lorient.Article),
      Lorient.parse_article soup = .ok a →
      (Lorient.articles_to_json_record a).map Lorient.read_batch_record =
        a.datetime.map (fun _ => a)) ∧
    (∀ a : The961.Article,
      The961.read_batch_record (The961.articles_to_json_record a) =
        ⟨a.language, zeroSec a.mod_date, zeroSec a.pub_date, a.title, a.text⟩) := by
  constructor
  · intro soup a hparse
    obtain ⟨canonical, title, published, text⟩ := soup
    have hex : ∃ lang, Lorient.article_langauge canonical = .ok lang ∧
        a = ⟨lang, title, published.map strptime_HM, text⟩ := by
      cases hcan : Lorient.article_langauge canonical with
      | error e => simp [Lorient.parse_article, hcan] at hparse
      | ok lang =>
        refine ⟨lang, rfl, ?_⟩
        simp only [Lorient.parse_article, hcan, Except.ok.injEq] at hparse
        exact hparse.symm
    obtain ⟨lang, hcan, rfl⟩ := hex
    cases published with
    | none => rfl
    | some s => rfl
  · intro a
    rfl

/-- C9 witness: the amended theorem's lorient part applied to a concrete
well-formed page whose parsed article round-trips identically. -/
theorem C9_record_round_trip_witness :
    (Lorient.articles_to_json_record Lorient.goodArticle).map Lorient.read_batch_record =
      Lorient.goodArticle.datetime.map (fun _ => Lorient.goodArticle) :=
  C9_record_round_trip.1 Lorient.goodSoup Lorient.goodArticle (by rfl)

/-- C9 counterexample: a the961 article whose published timestamp
carries 45 seconds is re-read with seconds zero — the exact numeric
timestamp value is NOT reproduced — though its UTC offset survives. -/
theorem C9_counterexample :
    The961.read_batch_record (The961.articles_to_json_record The961.secArticle) ≠
        The961.secArticle ∧
      (The961.read_batch_record
        (The961.articles_to_json_record The961.secArticle)).pub_date.second = 0 ∧
      The961.secArticle.pub_date.second = 45 ∧
      (The961.read_batch_record
        (The961.articles_to_json_record The961.secArticle)).pub_date.utcoffset =
        The961.secArticle.pub_date.utcoffset := by
  refine ⟨by decide, rfl, rfl, rfl⟩

namespace The961

/-- C7 (amended): with sitemap index entries 1..4 in document order
(indices equal to names), the cursor at entry 2, entries 1 AND 4 already
completed, and entry 3 new: the walk moves the cursor to entry 3, folds
entry 2 into the completed set, resets the seen-URL set to entry 3's own
URLs (entry 2's URLs leave the seen set and entry 2, now completed, is
skipped by future walks — excluded from future active-diffing), and the
candidates are entry 2's unseen URLs plus all of entry 3's.  As the
claim stands — entry 4 present in the index and not completed — it
fails: the cursor moves to the highest-indexed non-completed entry,
which is 4, not 3 (see the counterexample). -/
theorem C7_cursor_advance (urlsOf : Nat → Finset Nat) (parsed : Finset Nat) :
    crawl_all_the961 (fun i => i) urlsOf [1, 2, 3, 4] ⟨2, {1, 4}, parsed⟩ =
      ((urlsOf 2 \ parsed) ∪ urlsOf 3, ⟨3, {1, 4, 2}, urlsOf 3⟩) := by
  have h1 : (1 : Nat) ∈ ({1, 4} : Finset Nat) := by decide
  have h4 : (4 : Nat) ∈ insert 2 ({1, 4} : Finset Nat) := by decide
  have hc : insert (2 : Nat) ({1, 4} : Finset Nat) = {1, 4, 2} := by decide
  simp only [crawl_all_the961, List.foldl_cons, List.foldl_nil, crawl_step, h1, h4,
    not_true_eq_false, reduceIte, Finset.empty_union]
  norm_num [hc]

/-- C7 counterexample: same scenario but with entry 4 new (not in the
completed set), exactly as the claim states it — the cursor advances to
entry 4, not entry 3. -/
theorem C7_counterexample :
    (crawl_all_the961 (fun i => i) (fun i => {i + 100}) [1, 2, 3, 4]
        ⟨2, {1}, ∅⟩).2.current_sitemap = 4 ∧ (4 : Nat) ≠ 3 := by
  refine ⟨by decide, by decide⟩

end The961

/-- Skipping one item whose worker raised nothing and produced no
article leaves the lorient batch result unchanged. -/
theorem Lorient.parse_many_skip (pre post : List Lorient.Fetch) (bad : Lorient.Fetch)
    (hw : Lorient.thread_worker bad = .ok .invalid ∨
          Lorient.thread_worker bad = .ok .timedOnly) :
    Lorient.parse_many (pre ++ bad :: post) = Lorient.parse_many (pre ++ post) := by
  induction pre with
  | nil =>
    show Lorient.parse_many (bad :: post) = Lorient.parse_many post
    rcases hw with hw | hw <;>
      · rw [Lorient.parse_many, hw]
        cases Lorient.parse_many post <;> rfl
  | cons h t ih =>
    simp only [List.cons_append]
    rw [Lorient.parse_many, Lorient.parse_many, ih]

/-- C4 (amended): the the961 pipeline isolates every per-item failure —
transient fetch error, 404, off-domain redirect, a malformed body
(ValidationError from `parse_article`), or an empty-text soft-fail — so
the other items' records are produced unchanged.  The lorient pipeline
isolates the transport failures (transient, 404, off-domain redirect),
but NOT a malformed page body: its `parse_article` is not wrapped in
try/except, and a page whose canonical link tag is missing makes the
worker raise, aborting the whole `parse_many` batch with no records at
all (see the counterexample). -/
theorem C4_pipeline_isolation :
    (∀ (pre post : List The961.Fetch) (bad : The961.Fetch),
      (bad = .transient ∨ bad = .notFound ∨ bad = .offDomain ∨
        (∃ soup, bad = .ok soup ∧
          (The961.parse_article soup = .error () ∨
           ∀ a, The961.parse_article soup = .ok a → a.text = ""))) →
      The961.parse_many (pre ++ bad :: post) =
        The961.parse_many pre ++ The961.parse_many post) ∧
    (∀ (pre post : List Lorient.Fetch) (bad : Lorient.Fetch),
      (bad = .transient ∨ bad = .notFound ∨ bad = .offDomain) →
      Lorient.parse_many (pre ++ bad :: post) =
        Lorient.parse_many (pre ++ post)) := by
  constructor
  · intro pre post bad hbad
    have hnone : (match The961.thread_worker bad with
        | .withArticle a => some a
        | _ => none) = (none : Option The961.Article) := by
      rcases hbad with rfl | rfl | rfl | ⟨soup, rfl, hsoup⟩
      · rfl
      · rfl
      · rfl
      · show (match The961.thread_worker (.ok soup) with
            | .withArticle a => some a
            | _ => none) = none
        rcases hsoup with herr | hempty
        · simp [The961.thread_worker, The961.get_html, herr]
        · cases hp : The961.parse_article soup with
          | error e => simp [The961.thread_worker, The961.get_html, hp]
          | ok a =>
            simp [The961.thread_worker, The961.get_html, hp, hempty a hp]
    simp only [The961.parse_many, List.filterMap_append, List.filterMap_cons, hnone]
  · intro pre post bad hbad
    apply Lorient.parse_many_skip
    left
    rcases hbad with rfl | rfl | rfl <;> rfl

/-- C4 witness: one transient item among three the961 candidates leaves
the other two records intact; one 404 item in a lorient batch is
likewise skipped. -/
theorem C4_pipeline_isolation_witness :
    (The961.parse_many [.ok The961.goodSoup, .transient, .ok The961.goodSoup] =
      The961.parse_many [.ok The961.goodSoup] ++ The961.parse_many [.ok The961.goodSoup]) ∧
    (Lorient.parse_many [.ok Lorient.goodSoup, .notFound] =
      Lorient.parse_many [.ok Lorient.goodSoup]) :=
  ⟨C4_pipeline_isolation.1 [.ok The961.goodSoup] [.ok The961.goodSoup] .transient
      (Or.inl rfl),
   C4_pipeline_isolation.2 [.ok Lorient.goodSoup] [] .notFound (Or.inr (Or.inl rfl))⟩

/-- C4 counterexample: a lorient batch of two candidates in which one
page body is malformed (missing canonical link tag) aborts entirely —
the well-formed candidate's record is lost — although that candidate
alone produces its record. -/
theorem C4_counterexample :
    Lorient.parse_many [.ok Lorient.goodSoup, .ok Lorient.badSoup] = .error () ∧
      Lorient.parse_many [.ok Lorient.goodSoup] = .ok [Lorient.goodArticle] :=
  ⟨rfl, rfl⟩

namespace Lorient

/-- The binary phase never returns an id below its initial bracket
bottom. -/
theorem find_latest_binary_ge (test : Tester) :
    ∀ (fuel bottom top r : Nat),
    find_latest_binary test fuel bottom top = some (some r) → bottom ≤ r := by
  intro fuel
  induction fuel with
  | zero => intro bottom top r h; simp [find_latest_binary] at h
  | succ f ih =>
    intro bottom top r h
    rw [find_latest_binary] at h
    split at h
    · simp only [Option.some.injEq] at h
      omega
    · split at h
      · simp at h
      · split at h
        · exact le_trans (Nat.le_refl bottom) (ih bottom _ r h)
        · exact le_trans (by omega) (ih _ top r h)

/-- Every outcome of the doubling phase: an exception, a `None` return, a
fallback at `start_id + 2^20`, or a bracket whose bottom is at least
`start_id`. -/
theorem find_latest_doubling_cases (test : Tester) (start_id : Nat) :
    ∀ (fuel s : Nat) (d : DblOut), find_latest_doubling test start_id fuel s = some d →
      d = .exn ∨ d = .ret none ∨ d = .ret (some (start_id + 2 ^ 20)) ∨
        ∃ b t, d = .bracket b t ∧ start_id ≤ b := by
  intro fuel
  induction fuel with
  | zero => intro s d h; simp [find_latest_doubling] at h
  | succ f ih =>
    intro s d h
    rw [find_latest_doubling] at h
    split at h
    · simp only [Option.some.injEq] at h
      right; left; exact h.symm
    · split at h
      · simp only [Option.some.injEq] at h
        left; exact h.symm
      · split at h
        · split at h
          · simp only [Option.some.injEq] at h
            right; right; left; exact h.symm
          · simp only [Option.some.injEq] at h
            right; right; right
            exact ⟨_, _, h.symm, by omega⟩
        · split at h
          · simp only [Option.some.injEq] at h
            right; right; left; exact h.symm
          · exact ih _ d h

/-- Whenever `find_latest` returns an id, that id is at least the start
id: the forward frontier cannot move backwards. -/
theorem find_latest_ge (fuel1 fuel2 : Nat) (test : Tester) (start_id r : Nat)
    (h : find_latest fuel1 fuel2 test start_id = some (.ok (some r))) :
    start_id ≤ r := by
  unfold find_latest find_latest_from at h
  cases hd : find_latest_doubling test start_id fuel1 1 with
  | none => rw [hd] at h; simp at h
  | some d =>
    rw [hd] at h
    rcases find_latest_doubling_cases test start_id fuel1 1 d hd with
      rfl | rfl | rfl | ⟨b, t, rfl, hb⟩
    · simp at h
    · simp at h
    · simp only [Option.some.injEq, Except.ok.injEq] at h
      omega
    · dsimp only at h
      cases hbin : find_latest_binary test fuel2 b t with
      | none => rw [hbin] at h; simp at h
      | some rr =>
        rw [hbin] at h
        simp only [Option.some.injEq, Except.ok.injEq] at h
        subst h
        exact le_trans hb (find_latest_binary_ge test fuel2 b t r hbin)

/-- The backward doubling loop only grows a positive width. -/
theorem find_backwards_doubling_ge (tdFuel : Nat) (probe : Int → DateProbeOut)
    (top target_date : Int) :
    ∀ (fuel : Nat) (w0 w : Int), 0 ≤ w0 →
    find_backwards_doubling tdFuel probe top target_date fuel w0 = some (.width w) →
    w0 ≤ w := by
  intro fuel
  induction fuel with
  | zero => intro w0 w _ h; simp [find_backwards_doubling] at h
  | succ f ih =>
    intro w0 w hw0 h
    rw [find_backwards_doubling] at h
    split at h
    · simp at h
    · simp at h
    · split at h
      · have := ih (w0 * 2) w (by omega) h
        omega
      · simp only [Option.some.injEq, FbOut.width.injEq] at h
        omega

/-- The backward binary phase returns an id inside its initial
bracket. -/
theorem find_backwards_binary_bounds (tdFuel : Nat) (probe : Int → DateProbeOut)
    (target_date : Int) :
    ∀ (fuel : Nat) (bottom top r : Int), bottom < top →
    find_backwards_binary tdFuel probe target_date fuel bottom top = some (.ok r) →
    bottom ≤ r ∧ r < top := by
  intro fuel
  induction fuel with
  | zero => intro bottom top r _ h; simp [find_backwards_binary] at h
  | succ f ih =>
    intro bottom top r hbt h
    rw [find_backwards_binary] at h
    split at h
    · rename_i hgap
      split at h
      · simp at h
      · simp at h
      · split at h
        · have := ih bottom _ r (by omega) h
          omega
        · have := ih _ top r (by omega) h
          omega
    · simp only [Option.some.injEq, Except.ok.injEq] at h
      omega

/-- Whenever `find_backwards` returns an id, that id is strictly below
`top`: the backward frontier strictly recedes. -/
theorem find_backwards_lt (tdFuel fuel1 fuel2 : Nat) (probe : Int → DateProbeOut)
    (top top_date target_date r : Int)
    (h : find_backwards tdFuel fuel1 fuel2 probe top top_date target_date =
      some (.ok r)) : r < top := by
  unfold find_backwards at h
  cases hd : find_backwards_doubling tdFuel probe top target_date fuel1 16 with
  | none => rw [hd] at h; simp at h
  | some d =>
    rw [hd] at h
    cases d with
    | exn => simp at h
    | width w =>
      dsimp only at h
      have hw : (16 : Int) ≤ w :=
        find_backwards_doubling_ge tdFuel probe top target_date fuel1 16 w
          (by norm_num) hd
      have hb := find_backwards_binary_bounds tdFuel probe target_date fuel2
        (top - w) (top - w + w / 2) r (by omega) h
      omega

/-- C5: after a successful `scrape_latest` run `max_id` never decreases
(it grows exactly when `find_latest` lands above the old frontier, i.e.
when new articles exist) and `min_id` is untouched; after a successful
`scrape_backwards` run `min_id` strictly decreases and `max_id` is
untouched; a run failing anywhere before the final checkpoint write —
which is the function's last statement — leaves the checkpoint file with
its pre-run content. -/
theorem C5_checkpoint_non_regression (fuel1 fuel2 tdFuel bfuel1 bfuel2 : Nat)
    (test : Tester) (probe : Int → DateProbeOut) (now cutoff : Int)
    (pok bok : Bool) (toc : Toc) :
    (∀ toc2, scrape_latest fuel1 fuel2 test now pok toc = .ok toc2 →
        toc.max_id ≤ toc2.max_id ∧ toc2.min_id = toc.min_id) ∧
    (∀ toc2, scrape_backwards tdFuel bfuel1 bfuel2 probe cutoff bok toc = .ok toc2 →
        toc2.min_id < toc.min_id ∧ toc2.max_id = toc.max_id) ∧
    (scrape_latest fuel1 fuel2 test now pok toc = .error () →
        toc_after (scrape_latest fuel1 fuel2 test now pok toc) toc = toc) ∧
    (scrape_backwards tdFuel bfuel1 bfuel2 probe cutoff bok toc = .error () →
        toc_after (scrape_backwards tdFuel bfuel1 bfuel2 probe cutoff bok toc) toc = toc) := by
  refine ⟨?_, ?_, ?_, ?_⟩
  · intro toc2 h
    unfold scrape_latest at h
    split at h
    · simp at h
    · simp at h
    · simp at h
    · rename_i latest_id hlatest
      split at h
      · simp only [Except.ok.injEq] at h
        subst h
        exact ⟨find_latest_ge fuel1 fuel2 test toc.max_id latest_id hlatest, rfl⟩
      · simp at h
  · intro toc2 h
    unfold scrape_backwards at h
    split at h
    · simp at h
    · simp at h
    · rename_i first_id hfirst
      split at h
      · simp only [Except.ok.injEq] at h
        subst h
        exact ⟨find_backwards_lt tdFuel bfuel1 bfuel2 probe toc.min_id
          toc.min_datetime cutoff first_id hfirst, rfl⟩
      · simp at h
  · intro h
    rw [h]
    rfl
  · intro h
    rw [h]
    rfl

/-- C5 witness: a concrete successful forward run moves `max_id` from 2
up to 4 with `min_id` untouched, and a concrete successful backward run
moves `min_id` from 100 down to 91 with `max_id` untouched. -/
theorem C5_checkpoint_non_regression_witness :
    ((2 : Nat) ≤ 4 ∧ (50 : Int) = 50) ∧ ((91 : Int) < 100 ∧ (7 : Nat) = 7) :=
  ⟨(C5_checkpoint_non_regression 21 3 1 2 20 (oneRunTest 2 3) idDateProbe 99 92
      true true ⟨2, 0, 50, 9⟩).1 ⟨4, 99, 50, 9⟩ (by rfl),
   (C5_checkpoint_non_regression 21 3 1 2 20 (oneRunTest 2 3) idDateProbe 99 92
      true true ⟨7, 0, 100, 100⟩).2.1 ⟨7, 0, 91, 92⟩ (by rfl)⟩

end Lorient
